import Mathlib

/-!
A shallow embedding of the core of the meal-planner repository
(src/mealplanner/models.py, planner.py, groceries.py) together with
proofs about the claims of its specification.

Modelling conventions:
* Python floats (times, servings, quantities) are modelled as rationals.
* Calendar dates are modelled as integers (days since an arbitrary epoch);
  the only operations the core performs on dates are adding a number of
  days and subtracting two dates, both of which are integer operations.
* Python dicts are modelled as association lists with last-write-wins
  insertion (alookup / assocInsert below); iteration order of the model
  matches the insertion order of the source's dicts.
* The random source (random.Random) is modelled as a stream of natural
  draws g together with a counter of how many draws were consumed;
  rng.choice(seq) consumes one draw and indexes the sequence with it.
  A fixed stream corresponds to a fixed seed (random.Random is
  deterministic given a seed); quantifying over all streams covers every
  possible seeded or unseeded behaviour.
* History keys are ISO week-start strings in the source; the core only
  ever uses the result of datetime.fromisoformat on them, so an entry is
  modelled by that parse result (none models a ValueError).
-/

namespace MealPlanner

/-- models.py: DAY_NAMES. -/
def DAY_NAMES : List String :=
  ["Sunday", "Monday", "Tuesday", "Wednesday", "Thursday", "Friday", "Saturday"]

/-- models.py: MEAL_TYPES. -/
def MEAL_TYPES : List String := ["breakfast", "lunch", "dinner", "snack"]

/-- models.py: Ingredient. -/
structure Ingredient where
  item : String
  qty : ℚ
  unit : String
  category : String
deriving DecidableEq, Repr

/-- models.py: Recipe. -/
structure Recipe where
  id : String
  name : String
  meals : List String
  tags : List String
  prep_time_min : ℚ
  cook_time_min : ℚ
  servings_per_recipe : ℚ
  produces_leftovers : Bool
  leftovers_replace_meal : Option String
  yields_prep_item : List String
  uses_prep_item : List String
  ingredients : List Ingredient
deriving DecidableEq, Repr

/-- models.py: Recipe.total_time_min (property, prep + cook). -/
def Recipe.total_time_min (r : Recipe) : ℚ := r.prep_time_min + r.cook_time_min

/-- models.py: WeekConfig (dataclass fields; the `people` property is a
separate definition below, mirroring the source where it is a property
rather than a stored field). -/
structure WeekConfig where
  week_start_date : ℤ
  variability_window_weeks : ℤ
  allow_high_effort_dinner : List (String × Bool)
  skip_meals : List (String × List String)
  enable_meal_prep_sunday : Bool
  meal_prep_max_minutes : Option ℤ
  preferred_prep_items : List String
  pantry : List String
deriving DecidableEq, Repr

/-- Python str.lower, character by character (identical to
String.toLower; spelled out so that it evaluates inside the kernel). -/
def pyLower (s : String) : String := ⟨s.data.map Char.toLower⟩

/-- Python str.title: the first letter of every word is upper-cased and
the rest lower-cased (a word boundary is any non-alphabetic character). -/
def pyTitleChars : Bool → List Char → List Char
  | _, [] => []
  | prevAlpha, c :: rest =>
    (if prevAlpha then c.toLower else c.toUpper) :: pyTitleChars c.isAlpha rest

/-- Python str.title on a string. -/
def pyTitle (s : String) : String := ⟨pyTitleChars false s.data⟩

/-- Python dict lookup (d.get(key)) on an association list. -/
def alookup {α : Type} : List (String × α) → String → Option α
  | [], _ => none
  | (k, v) :: rest, key => if k = key then some v else alookup rest key

/-- Python dict assignment (d[key] = v): overwrite in place, else append. -/
def assocInsert {α : Type} : List (String × α) → String → α → List (String × α)
  | [], key, v => [(key, v)]
  | (k, w) :: rest, key, v =>
    if k = key then (k, v) :: rest else (k, w) :: assocInsert rest key v

/-- Python dict.pop(key, default): remove the entry for a key. -/
def aremove {α : Type} : List (String × α) → String → List (String × α)
  | [], _ => []
  | (k, v) :: rest, key =>
    if k = key then aremove rest key else (k, v) :: aremove rest key

/-- models.py: position of a day name in DAY_NAMES (DAY_NAMES.index;
the source raises ValueError for unknown names, which never happens for
the canonical names the planner passes). -/
def dayIndexOf : List String → String → ℕ
  | [], _ => 0
  | d :: rest, day => if d = day then 0 else dayIndexOf rest day + 1

/-- models.py: WeekConfig.day_date — week_start_date plus the day's index. -/
def WeekConfig.day_date (c : WeekConfig) (day_name : String) : ℤ :=
  c.week_start_date + (dayIndexOf DAY_NAMES day_name : ℤ)

/-- models.py: WeekConfig.people — a property that always returns 2. -/
def WeekConfig.people (_ : WeekConfig) : ℤ := 2

/-- models.py: WeekConfig.allows_high_effort_dinner —
bool(self.allow_high_effort_dinner.get(day_name, False)). -/
def WeekConfig.allows_high_effort_dinner (c : WeekConfig) (day_name : String) : Bool :=
  (alookup c.allow_high_effort_dinner day_name).getD false

/-- The raw configuration dictionary consumed by WeekConfig.from_dict.
Fields are the keys the loader may supply; `people` models a
number-of-people key present in the raw JSON (the source's from_dict
never consults it). Day-keyed dicts carry arbitrary (possibly
non-canonical) day-name keys. -/
structure ConfigData where
  week_start_date : ℤ
  people : Option ℤ
  variability_window_weeks : Option ℤ
  allow_high_effort_dinner : List (String × Bool)
  skip_meals : List (String × List String)
  enable_meal_prep_sunday : Bool
  meal_prep_max_minutes : Option ℤ
  preferred_prep_items : List String
  pantry : List String
deriving DecidableEq, Repr

/-- models.py: WeekConfig.from_dict. Day-keyed entries whose key is not a
canonical day name are dropped (ensure_day_name raising ValueError is
caught and the entry skipped); pantry items are lower-cased. -/
def WeekConfig.from_dict (data : ConfigData) : WeekConfig :=
  { week_start_date := data.week_start_date
    variability_window_weeks := data.variability_window_weeks.getD 0
    allow_high_effort_dinner :=
      data.allow_high_effort_dinner.filter (fun p => decide (p.1 ∈ DAY_NAMES))
    skip_meals := data.skip_meals.filter (fun p => decide (p.1 ∈ DAY_NAMES))
    enable_meal_prep_sunday := data.enable_meal_prep_sunday
    meal_prep_max_minutes := data.meal_prep_max_minutes
    preferred_prep_items := data.preferred_prep_items
    pantry := data.pantry.map pyLower }

/-- models.py: PlanMeal. -/
structure PlanMeal where
  day_name : String
  date : ℤ
  meal_type : String
  recipe_id : Option String
  recipe_name : Option String
  total_time_min : Option ℚ
  is_leftover : Bool := false
  leftover_source_id : Option String := none
  leftover_source_name : Option String := none
deriving DecidableEq, Repr

/-- models.py: PlanDay. -/
structure PlanDay where
  day_name : String
  date : ℤ
  meals : List PlanMeal
deriving DecidableEq, Repr

/-- One history entry: the parse result of its ISO week-start key
(none models a key datetime.fromisoformat rejects) and the recipe ids
recorded for that week. -/
structure HistEntry where
  week : Option ℤ
  recipes : List String
deriving DecidableEq, Repr

/-- planner.py: HIGH_EFFORT_THRESHOLD_MIN. -/
def HIGH_EFFORT_THRESHOLD_MIN : ℚ := 30

/-- planner.py: _recipes_for_meal. -/
def _recipes_for_meal (recipes : List Recipe) (meal : String) : List Recipe :=
  recipes.filter (fun r => decide (meal ∈ r.meals))

/-- planner.py: _filter_low_effort_dinners. -/
def _filter_low_effort_dinners (recipes : List Recipe) (allow_high_effort : Bool) :
    List Recipe :=
  if allow_high_effort then recipes
  else recipes.filter (fun r => decide (r.total_time_min ≤ HIGH_EFFORT_THRESHOLD_MIN))

/-- planner.py: _avoid_recent_recipes — drop forbidden ids, but fall back
to the input list when that would empty it (remaining or list(recipes)). -/
def _avoid_recent_recipes (recipes : List Recipe) (forbidden : List String) :
    List Recipe :=
  let remaining := recipes.filter (fun r => decide (r.id ∉ forbidden))
  if remaining = [] then recipes else remaining

/-- planner.py: _choose_recipe — None on an empty list, otherwise one
uniformly random element; the draw stream g and counter k model the
rng, the picked index is the draw reduced modulo the length. -/
def _choose_recipe (recipes : List Recipe) (g : ℕ → ℕ) (k : ℕ) :
    Option Recipe × ℕ :=
  match recipes with
  | [] => (none, k)
  | _ :: _ => (recipes[g k % recipes.length]?, k + 1)

/-- planner.py: the body of _gather_recent_history's loop for one
history entry: skip unparseable keys, take everything when the window
is non-positive, otherwise take entries whose whole-week distance
(Python floor division //, Int.fdiv here) is within the window. -/
def _gather_step (week_start window : ℤ) (forbidden : List String)
    (entry : HistEntry) : List String :=
  match entry.week with
  | none => forbidden
  | some entry_date =>
    if window ≤ 0 then forbidden ++ entry.recipes
    else
      let delta_weeks := Int.fdiv (week_start - entry_date) 7
      if 0 < delta_weeks ∧ delta_weeks ≤ window then forbidden ++ entry.recipes
      else forbidden

/-- planner.py: _gather_recent_history. -/
def _gather_recent_history (history : Option (List HistEntry))
    (current_week : WeekConfig) : List String :=
  match history with
  | none => []
  | some entries =>
    entries.foldl
      (_gather_step current_week.week_start_date current_week.variability_window_weeks)
      []

/-- planner.py: the skip set for a day —
set(meal.lower() for meal in config.skip_meals.get(day_name, [])). -/
def skipSetFor (config : WeekConfig) (day_name : String) : List String :=
  ((alookup config.skip_meals day_name).getD []).map pyLower

/-- planner.py: the candidate list for a slot before the recency filter —
_recipes_for_meal, then for dinner only _filter_low_effort_dinners. -/
def slotCandidates (recipes : List Recipe) (config : WeekConfig)
    (day_name meal : String) : List Recipe :=
  let candidates := _recipes_for_meal recipes meal
  if meal = "dinner" then
    _filter_low_effort_dinners candidates (config.allows_high_effort_dinner day_name)
  else candidates

/-- The per-day context generate_plan has in scope inside its day loop. -/
structure DayCtx where
  recipes : List Recipe
  config : WeekConfig
  recent : List String
  g : ℕ → ℕ
  day_index : ℕ
  day_name : String
  day_date : ℤ
  skip : List String
  leftover_meals : List (String × Recipe)

/-- planner.py, lines 166-173: the pending-leftover record a selected
recipe schedules — (meal_to_replace, recipe) when the recipe produces
leftovers, its leftovers_replace_meal is a valid meal type and a
following day exists. -/
def pendOf (day_index : ℕ) (recipe : Recipe) : Option (String × Recipe) :=
  match recipe.leftovers_replace_meal with
  | some meal_to_replace =>
    if recipe.produces_leftovers = true ∧ meal_to_replace ∈ MEAL_TYPES ∧
        day_index + 1 < DAY_NAMES.length then
      some (meal_to_replace, recipe)
    else none
  | none => none

/-- planner.py: the body of generate_plan's inner meal loop for one slot.
Returns the produced PlanMeal, the advanced rng counter, and the pending
leftover record (meal_to_replace, recipe) this selection schedules for
the following day, if any. -/
def planMealFor (ctx : DayCtx) (meal : String) (k : ℕ) :
    PlanMeal × ℕ × Option (String × Recipe) :=
  match alookup ctx.leftover_meals meal with
  | some leftover_recipe =>
    ({ day_name := ctx.day_name, date := ctx.day_date, meal_type := meal
       recipe_id := none, recipe_name := some leftover_recipe.name
       total_time_min := none, is_leftover := true
       leftover_source_id := some leftover_recipe.id
       leftover_source_name := some leftover_recipe.name }, k, none)
  | none =>
    if meal ∈ ctx.skip then
      ({ day_name := ctx.day_name, date := ctx.day_date, meal_type := meal
         recipe_id := none, recipe_name := none, total_time_min := none }, k, none)
    else
      let candidates :=
        _avoid_recent_recipes (slotCandidates ctx.recipes ctx.config ctx.day_name meal)
          ctx.recent
      let chosen := _choose_recipe candidates ctx.g k
      match chosen.1 with
      | none =>
        ({ day_name := ctx.day_name, date := ctx.day_date, meal_type := meal
           recipe_id := none, recipe_name := none, total_time_min := none }, chosen.2, none)
      | some recipe =>
        ({ day_name := ctx.day_name, date := ctx.day_date, meal_type := meal
           recipe_id := some recipe.id, recipe_name := some recipe.name
           total_time_min := some recipe.total_time_min }, chosen.2,
         pendOf ctx.day_index recipe)

/-- The pending-leftovers dict: day name to (meal slot to source recipe). -/
def PendingMap : Type := List (String × List (String × Recipe))

/-- planner.py: pending_leftovers.setdefault(next_day, dict)[meal] = recipe,
applied when a selection schedules a leftover. -/
def applyPend (day_index : ℕ) (pending : PendingMap) :
    Option (String × Recipe) → PendingMap
  | none => pending
  | some (meal_to_replace, recipe) =>
    let next_day := DAY_NAMES.getD (day_index + 1) ""
    assocInsert pending next_day
      (assocInsert ((alookup pending next_day).getD []) meal_to_replace recipe)

/-- planner.py: generate_plan's inner loop over MEAL_TYPES for one day. -/
def planMeals (ctx : DayCtx) :
    List String → ℕ → PendingMap → List PlanMeal × ℕ × PendingMap
  | [], k, pending => ([], k, pending)
  | meal :: rest, k, pending =>
    let step := planMealFor ctx meal k
    let pending' := applyPend ctx.day_index pending step.2.2
    let tail := planMeals ctx rest step.2.1 pending'
    (step.1 :: tail.1, tail.2.1, tail.2.2)

/-- planner.py: the per-day values generate_plan's day loop computes
before its meal loop — the date, the lowered skip set and this day's
pending-leftover map. -/
def dayCtxFor (recipes : List Recipe) (config : WeekConfig) (recent : List String)
    (g : ℕ → ℕ) (day_name : String) (day_index : ℕ) (pending : PendingMap) : DayCtx :=
  { recipes := recipes, config := config, recent := recent, g := g
    day_index := day_index, day_name := day_name
    day_date := config.day_date day_name
    skip := skipSetFor config day_name
    leftover_meals := (alookup pending day_name).getD [] }

/-- planner.py: the body of generate_plan's day loop for one day:
set up the per-day context, pop this day's pending leftovers, then fill
the four slots. -/
def dayStep (recipes : List Recipe) (config : WeekConfig) (recent : List String)
    (g : ℕ → ℕ) (day_name : String) (day_index : ℕ) (k : ℕ) (pending : PendingMap) :
    PlanDay × ℕ × PendingMap :=
  let ctx := dayCtxFor recipes config recent g day_name day_index pending
  let res := planMeals ctx MEAL_TYPES k (aremove pending day_name)
  ({ day_name := day_name, date := ctx.day_date, meals := res.1 }, res.2.1, res.2.2)

/-- planner.py: generate_plan's loop over enumerate(DAY_NAMES). -/
def planDays (recipes : List Recipe) (config : WeekConfig) (recent : List String)
    (g : ℕ → ℕ) :
    List String → ℕ → ℕ → PendingMap → List PlanDay × ℕ
  | [], _, k, _ => ([], k)
  | day_name :: rest, day_index, k, pending =>
    let step := dayStep recipes config recent g day_name day_index k pending
    let tail := planDays recipes config recent g rest (day_index + 1) step.2.1 step.2.2
    (step.1 :: tail.1, tail.2)

/-- planner.py: recipe_lookup dict comprehension — for duplicate ids the
last recipe wins, as with a Python dict comprehension. -/
def _recipe_lookup : List Recipe → String → Option Recipe
  | [], _ => none
  | r :: rest, rid =>
    match _recipe_lookup rest rid with
    | some r' => some r'
    | none => if r.id = rid then some r else none

/-- defaultdict(list)[key].append(v): append to a key's list, creating the
key at the end on first use. -/
def assocAppendOne : List (String × List String) → String → String →
    List (String × List String)
  | [], key, v => [(key, [v])]
  | (k, vs) :: rest, key, v =>
    if k = key then (k, vs ++ [v]) :: rest else (k, vs) :: assocAppendOne rest key v

/-- planner.py: _build_summary — group, per yielded prep item, the names
of the scheduled recipes that yield it (empty-string ids are falsy in
Python and skipped like missing ones). -/
def _build_summary (days : List PlanDay) (recipes : List Recipe) :
    List (String × List String) :=
  days.foldl
    (fun acc day =>
      day.meals.foldl
        (fun acc meal =>
          match meal.recipe_id with
          | none => acc
          | some rid =>
            if rid = "" then acc
            else
              match _recipe_lookup recipes rid with
              | none => acc
              | some r =>
                r.yields_prep_item.foldl (fun acc item => assocAppendOne acc item r.name) acc)
        acc)
    []

/-- Stable insertion into a sorted list: the new element goes after every
element le-below-or-equal to it (models Python's stable sorted). -/
def insSorted {α : Type} (le : α → α → Bool) : α → List α → List α
  | x, [] => [x]
  | x, y :: rest => if le y x then y :: insSorted le x rest else x :: y :: rest

/-- Python sorted: stable sort by repeated insertion. -/
def pySorted {α : Type} (le : α → α → Bool) (l : List α) : List α :=
  l.foldl (fun acc x => insSorted le x acc) []

/-- Lexicographic at-most on strings (a is not strictly above b), the
order Python's sorted uses for strings; le-form for the stable sort. -/
def strLeB (a b : String) : Bool := !(decide (b < a))

/-- The serialisable plan dictionary generate_plan returns. generated_at
is the wall-clock timestamp string the source obtains from
datetime.now(timezone.utc), supplied here as the explicit input now. -/
structure Plan where
  week_start_date : ℤ
  generated_at : String
  seed : Option ℤ
  days : List PlanDay
  metadata_people : ℤ
  metadata_variability_window_weeks : ℤ
  metadata_recent_recipes : List String
  summary_yielded_prep_items : List (String × List String)
deriving DecidableEq, Repr

/-- planner.py: generate_plan. -/
def generate_plan (recipes : List Recipe) (config : WeekConfig)
    (history : Option (List HistEntry)) (seed : Option ℤ) (g : ℕ → ℕ)
    (now : String) : Plan :=
  let recent := _gather_recent_history history config
  let daysRes := planDays recipes config recent g DAY_NAMES 0 0 []
  { week_start_date := config.week_start_date
    generated_at := now
    seed := seed
    days := daysRes.1
    metadata_people := config.people
    metadata_variability_window_weeks := config.variability_window_weeks
    metadata_recent_recipes := pySorted strLeB recent.dedup
    summary_yielded_prep_items := _build_summary daysRes.1 recipes }

/-- groceries.py: GroceryItem. -/
structure GroceryItem where
  item : String
  quantity : ℚ
  unit : String
  category : String
  sources : List String
deriving DecidableEq, Repr

/-- groceries.py, line 54: the per-recipe multiplier —
config.people / recipe.servings_per_recipe if recipe.servings_per_recipe
else 1.0 (a zero servings count is falsy in Python). -/
def _grocery_multiplier (config : WeekConfig) (recipe : Recipe) : ℚ :=
  if recipe.servings_per_recipe ≠ 0 then
    (config.people : ℚ) / recipe.servings_per_recipe
  else 1

/-- groceries.py: _meal_description — day name, space, title-cased meal. -/
def _meal_description (day : PlanDay) (meal : PlanMeal) : String :=
  day.day_name ++ " " ++ pyTitle meal.meal_type

/-- The aggregation step on one ingredient occurrence: create the bucket
for the (lower-cased item, unit) key on first use (insertion order is
the dict order), then add the scaled quantity and the source line. -/
def bucketUpd : List ((String × String) × GroceryItem) → (String × String) →
    Ingredient → ℚ → String → List ((String × String) × GroceryItem)
  | [], key, ing, qty, src =>
    [(key, { item := ing.item, quantity := 0 + qty, unit := ing.unit
             category := ing.category, sources := [src] })]
  | (k, it) :: rest, key, ing, qty, src =>
    if k = key then
      (k, { it with quantity := it.quantity + qty, sources := it.sources ++ [src] }) :: rest
    else (k, it) :: bucketUpd rest key ing qty src

/-- Lexicographic comparison of (category, item) pairs mirroring the
Python sort key; le-form for the stable sort. -/
def groceryLeB (a b : GroceryItem) : Bool :=
  !(decide (b.category < a.category) ||
    (decide (b.category = a.category) && decide (b.item < a.item)))

/-- groceries.py: collect_grocery_items. Leftover and empty slots have a
null recipe_id and contribute nothing; unknown recipe ids are skipped;
pantry items (matched on the lower-cased name) are excluded; the result
is sorted by (category, item). -/
def collect_grocery_items (plan : Plan) (recipes : List Recipe)
    (config : WeekConfig) : List GroceryItem :=
  let aggregated :=
    plan.days.foldl
      (fun agg day =>
        day.meals.foldl
          (fun agg meal =>
            match meal.recipe_id with
            | none => agg
            | some rid =>
              if rid = "" then agg
              else
                match _recipe_lookup recipes rid with
                | none => agg
                | some recipe =>
                  let multiplier := _grocery_multiplier config recipe
                  let source := _meal_description day meal
                  recipe.ingredients.foldl
                    (fun agg ingredient =>
                      let item_key := pyLower ingredient.item
                      if item_key ∈ config.pantry then agg
                      else
                        bucketUpd agg (item_key, ingredient.unit) ingredient
                          (ingredient.qty * multiplier) source)
                    agg)
          agg)
      []
  pySorted groceryLeB (aggregated.map Prod.snd)

/-- Two-digit zero padding for the fractional part of a quantity. -/
def pad2 (m : ℕ) : String := if m < 10 then "0" ++ toString m else toString m

/-- Python f-string formatting with .2f: the quantity rounded to two
decimal places. Quantities are rationals here; rounding of an exact
half-cent (where Python consults the binary float representation) is
taken half-up — no such tie occurs in this development. -/
def formatQty2 (q : ℚ) : String :=
  let n : ℤ := round (q * 100)
  if n < 0 then
    "-" ++ toString ((-n).toNat / 100) ++ "." ++ pad2 ((-n).toNat % 100)
  else toString (n.toNat / 100) ++ "." ++ pad2 (n.toNat % 100)

/-- groceries.py: build_grocery_table. The csv writer is abstracted to
the list of rows it is handed: a header row, then one row per item with
the quantity formatted to two decimals and the sources semicolon-joined. -/
def build_grocery_table (items : List GroceryItem) : List (List String) :=
  ["item", "quantity", "unit", "category", "sources"] ::
    items.map
      (fun item =>
        [item.item, formatQty2 item.quantity, item.unit, item.category,
         String.intercalate "; " item.sources])

/-- Extracting a named day from the produced plan (plan readers access
days by position; finding the unique day with a given name is the same
thing because day names are unique in a plan, see the shape theorems). -/
def findDay : List PlanDay → String → Option PlanDay
  | [], _ => none
  | d :: rest, day => if d.day_name = day then some d else findDay rest day

/-- Extracting a named meal slot from a day. -/
def findMeal : List PlanMeal → String → Option PlanMeal
  | [], _ => none
  | m :: rest, meal => if m.meal_type = meal then some m else findMeal rest meal

/-- The slot of a plan at a given day name and meal type. -/
def slotOf (plan : Plan) (day meal : String) : Option PlanMeal :=
  (findDay plan.days day).bind (fun d => findMeal d.meals meal)

/-- The day/slot skeleton of a plan: day names with their meal types. -/
def planShape (plan : Plan) : List (String × List String) :=
  plan.days.map (fun d => (d.day_name, d.meals.map PlanMeal.meal_type))

/-! ### Concrete inputs used by witnesses and counterexamples -/

/-- A fixed draw stream: every draw is 0 (any concrete seeded rng). -/
def gzero : ℕ → ℕ := fun _ => 0

/-- Another fixed draw stream, distinct from gzero. -/
def gone : ℕ → ℕ := fun n => n + 1

/-- A plain configuration: no skips, no high-effort allowances. -/
def cfgPlain : WeekConfig :=
  { week_start_date := 0, variability_window_weeks := 0
    allow_high_effort_dinner := [], skip_meals := []
    enable_meal_prep_sunday := false, meal_prep_max_minutes := none
    preferred_prep_items := [], pantry := [] }

/-- A configuration that skips Monday lunch. -/
def cfgSkipMonLunch : WeekConfig :=
  { cfgPlain with skip_meals := [("Monday", ["lunch"])] }

/-- A configuration that skips Tuesday snack. -/
def cfgSkipTueSnack : WeekConfig :=
  { cfgPlain with skip_meals := [("Tuesday", ["snack"])] }

/-- A dinner recipe that produces leftovers replacing the next lunch. -/
def rDinnerProd : Recipe :=
  { id := "d1", name := "Dinner One", meals := ["dinner"], tags := []
    prep_time_min := 0, cook_time_min := 0, servings_per_recipe := 1
    produces_leftovers := true, leftovers_replace_meal := some "lunch"
    yields_prep_item := [], uses_prep_item := [], ingredients := [] }

/-- A breakfast recipe that also produces leftovers replacing the next
lunch (used to exhibit the pending-entry overwrite). -/
def rBfastProd : Recipe :=
  { id := "r1", name := "Breakfast Prod", meals := ["breakfast"], tags := []
    prep_time_min := 0, cook_time_min := 0, servings_per_recipe := 1
    produces_leftovers := true, leftovers_replace_meal := some "lunch"
    yields_prep_item := [], uses_prep_item := [], ingredients := [] }

/-- A second leftover-producing dinner recipe. -/
def rDinnerProd2 : Recipe :=
  { rDinnerProd with id := "r2", name := "Dinner Prod" }

/-- A plain breakfast recipe. -/
def rBfast : Recipe :=
  { id := "b", name := "Bfast", meals := ["breakfast"], tags := []
    prep_time_min := 0, cook_time_min := 0, servings_per_recipe := 1
    produces_leftovers := false, leftovers_replace_meal := none
    yields_prep_item := [], uses_prep_item := [], ingredients := [] }

/-- A history with one parseable week containing rBfast's id. -/
def histB : List HistEntry := [{ week := some 0, recipes := ["b"] }]

/-- A quick dinner recipe (10 minutes). -/
def rDinnerFast : Recipe :=
  { id := "df", name := "Fast Dinner", meals := ["dinner"], tags := []
    prep_time_min := 5, cook_time_min := 5, servings_per_recipe := 1
    produces_leftovers := false, leftovers_replace_meal := none
    yields_prep_item := [], uses_prep_item := [], ingredients := [] }

/-- A slow dinner recipe (60 minutes). -/
def rDinnerSlow : Recipe :=
  { id := "ds", name := "Slow Dinner", meals := ["dinner"], tags := []
    prep_time_min := 30, cook_time_min := 30, servings_per_recipe := 1
    produces_leftovers := false, leftovers_replace_meal := none
    yields_prep_item := [], uses_prep_item := [], ingredients := [] }

/-- A recipe with a zero servings count. -/
def rZeroServ : Recipe := { rBfast with id := "z0", servings_per_recipe := 0 }

/-- A recipe with four servings. -/
def rFourServ : Recipe := { rBfast with id := "s4", servings_per_recipe := 4 }

/-- The Pasta recipe of the repository's grocery test
(tests/test_groceries.py), servings_per_recipe = 2, pasta qty 200. -/
def pastaRecipe : Recipe :=
  { id := "dinner_1", name := "Pasta", meals := ["dinner"], tags := []
    prep_time_min := 10, cook_time_min := 20, servings_per_recipe := 2
    produces_leftovers := false, leftovers_replace_meal := none
    yields_prep_item := [], uses_prep_item := []
    ingredients :=
      [{ item := "pasta", qty := 200, unit := "g", category := "grains" },
       { item := "tomato sauce", qty := 1, unit := "jar", category := "pantry" },
       { item := "water", qty := 2, unit := "cups", category := "pantry" }] }

/-- The raw configuration of the repository's grocery test: it carries a
people = 4 key, which WeekConfig.from_dict drops. -/
def cfgDataTest : ConfigData :=
  { week_start_date := 0, people := some 4, variability_window_weeks := some 2
    allow_high_effort_dinner := [], skip_meals := []
    enable_meal_prep_sunday := false, meal_prep_max_minutes := none
    preferred_prep_items := [], pantry := ["water"] }

/-- The WeekConfig the grocery test builds. -/
def cfgTest : WeekConfig := WeekConfig.from_dict cfgDataTest

/-- A filled dinner slot referencing the Pasta recipe. -/
def pastaSlot (day : String) (date : ℤ) : PlanMeal :=
  { day_name := day, date := date, meal_type := "dinner"
    recipe_id := some "dinner_1", recipe_name := some "Pasta"
    total_time_min := some 30 }

/-- The plan of the repository's grocery test: Pasta scheduled for
Sunday dinner and Monday dinner. -/
def planPasta : Plan :=
  { week_start_date := 0, generated_at := "t", seed := none
    days :=
      [{ day_name := "Sunday", date := 0, meals := [pastaSlot "Sunday" 0] },
       { day_name := "Monday", date := 1, meals := [pastaSlot "Monday" 1] }]
    metadata_people := 2, metadata_variability_window_weeks := 2
    metadata_recent_recipes := [], summary_yielded_prep_items := [] }

/-- The pending leftover recipe recorded for a given day and meal slot
in the pending-leftovers dict. -/
def pendingFor (P : PendingMap) (day meal : String) : Option Recipe :=
  alookup ((alookup P day).getD []) meal

/-- The slot records the selection of a catalog recipe that schedules a
lunch leftover for the next day. -/
def lunchProducerSlot (recipes : List Recipe) (s : PlanMeal) : Prop :=
  ∃ rid, s.recipe_id = some rid ∧
    ∃ r ∈ recipes, r.id = rid ∧ r.produces_leftovers = true ∧
      r.leftovers_replace_meal = some "lunch"

/-! ### Lemmas about the dictionary model -/

theorem alookup_assocInsert_self {α : Type} (m : List (String × α)) (key : String) (v : α) :
    alookup (assocInsert m key v) key = some v := by
  induction m with
  | nil => simp [assocInsert, alookup]
  | cons p rest ih =>
    rcases p with ⟨k1, w⟩
    by_cases h : k1 = key
    · simp only [assocInsert, if_pos h, alookup]
    · simp only [assocInsert, if_neg h, alookup]
      exact ih

theorem alookup_assocInsert_ne {α : Type} (m : List (String × α)) (key key' : String)
    (v : α) (h : key' ≠ key) :
    alookup (assocInsert m key v) key' = alookup m key' := by
  induction m with
  | nil =>
    simp only [assocInsert, alookup]
    rw [if_neg (Ne.symm h)]
  | cons p rest ih =>
    rcases p with ⟨k1, w⟩
    by_cases hp : k1 = key
    · subst hp
      simp only [assocInsert, if_pos rfl, alookup]
      rw [if_neg (Ne.symm h), if_neg (Ne.symm h)]
    · simp only [assocInsert, if_neg hp, alookup]
      by_cases hp' : k1 = key'
      · rw [if_pos hp', if_pos hp']
      · rw [if_neg hp', if_neg hp']
        exact ih

/-! ### Lemmas about the candidate filters and the choice function -/

theorem mem_of_mem_avoid {l : List Recipe} {f : List String} {r : Recipe}
    (h : r ∈ _avoid_recent_recipes l f) : r ∈ l := by
  simp only [_avoid_recent_recipes] at h
  by_cases hf : l.filter (fun r => decide (r.id ∉ f)) = []
  · rw [if_pos hf] at h
    exact h
  · rw [if_neg hf] at h
    exact List.mem_of_mem_filter h

theorem avoid_id_not_forbidden {l : List Recipe} {f : List String} {r : Recipe}
    (h : r ∈ _avoid_recent_recipes l f)
    (hne : l.filter (fun r => decide (r.id ∉ f)) ≠ []) : r.id ∉ f := by
  simp only [_avoid_recent_recipes] at h
  rw [if_neg hne] at h
  exact of_decide_eq_true (List.mem_filter.mp h).2

theorem avoid_eq_of_filter_nil {l : List Recipe} {f : List String}
    (h : l.filter (fun r => decide (r.id ∉ f)) = []) :
    _avoid_recent_recipes l f = l := by
  simp only [_avoid_recent_recipes]
  rw [if_pos h]

theorem mem_recipes_of_mem_slotCandidates {rs : List Recipe} {c : WeekConfig}
    {d m : String} {r : Recipe} (h : r ∈ slotCandidates rs c d m) : r ∈ rs := by
  simp only [slotCandidates, _recipes_for_meal, _filter_low_effort_dinners] at h
  by_cases hm : m = "dinner"
  · rw [if_pos hm] at h
    by_cases ha : c.allows_high_effort_dinner d
    · rw [if_pos ha] at h
      exact List.mem_of_mem_filter h
    · rw [if_neg ha] at h
      exact List.mem_of_mem_filter (List.mem_of_mem_filter h)
  · rw [if_neg hm] at h
    exact List.mem_of_mem_filter h

theorem slotCandidates_dinner_le {rs : List Recipe} {c : WeekConfig} {d : String}
    {r : Recipe} (hallow : c.allows_high_effort_dinner d = false)
    (h : r ∈ slotCandidates rs c d "dinner") :
    r.total_time_min ≤ HIGH_EFFORT_THRESHOLD_MIN := by
  simp only [slotCandidates, _filter_low_effort_dinners] at h
  rw [if_pos trivial, hallow] at h
  rw [if_neg (by simp)] at h
  exact of_decide_eq_true (List.mem_filter.mp h).2

theorem _choose_recipe_mem {l : List Recipe} {g : ℕ → ℕ} {k : ℕ} {r : Recipe}
    (h : (_choose_recipe l g k).1 = some r) : r ∈ l := by
  unfold _choose_recipe at h
  cases l with
  | nil => simp at h
  | cons a rest => exact List.getElem?_mem h

theorem _choose_recipe_none {l : List Recipe} {g : ℕ → ℕ} {k : ℕ}
    (h : (_choose_recipe l g k).1 = none) : l = [] := by
  cases l with
  | nil => rfl
  | cons a rest =>
    unfold _choose_recipe at h
    rw [List.getElem?_eq_getElem (Nat.mod_lt _ (by simp))] at h
    exact absurd h (by simp)

/-! ### The four possible outcomes of one slot -/

theorem planMealFor_spec (ctx : DayCtx) (meal : String) (k : ℕ) :
    (planMealFor ctx meal k).1.meal_type = meal ∧
    (planMealFor ctx meal k).1.day_name = ctx.day_name ∧
    ((∃ lr, alookup ctx.leftover_meals meal = some lr ∧
        (planMealFor ctx meal k).1.recipe_id = none ∧
        (planMealFor ctx meal k).1.recipe_name = some lr.name ∧
        (planMealFor ctx meal k).1.total_time_min = none ∧
        (planMealFor ctx meal k).1.is_leftover = true ∧
        (planMealFor ctx meal k).1.leftover_source_id = some lr.id ∧
        (planMealFor ctx meal k).1.leftover_source_name = some lr.name ∧
        (planMealFor ctx meal k).2.2 = none) ∨
      (alookup ctx.leftover_meals meal = none ∧ meal ∈ ctx.skip ∧
        (planMealFor ctx meal k).1.recipe_id = none ∧
        (planMealFor ctx meal k).1.recipe_name = none ∧
        (planMealFor ctx meal k).1.total_time_min = none ∧
        (planMealFor ctx meal k).1.is_leftover = false ∧
        (planMealFor ctx meal k).1.leftover_source_id = none ∧
        (planMealFor ctx meal k).1.leftover_source_name = none ∧
        (planMealFor ctx meal k).2.2 = none) ∨
      (alookup ctx.leftover_meals meal = none ∧ meal ∉ ctx.skip ∧
        (planMealFor ctx meal k).1.recipe_id = none ∧
        (planMealFor ctx meal k).1.recipe_name = none ∧
        (planMealFor ctx meal k).1.total_time_min = none ∧
        (planMealFor ctx meal k).1.is_leftover = false ∧
        (planMealFor ctx meal k).1.leftover_source_id = none ∧
        (planMealFor ctx meal k).1.leftover_source_name = none ∧
        (planMealFor ctx meal k).2.2 = none ∧
        _avoid_recent_recipes (slotCandidates ctx.recipes ctx.config ctx.day_name meal)
          ctx.recent = []) ∨
      (∃ r, alookup ctx.leftover_meals meal = none ∧ meal ∉ ctx.skip ∧
        r ∈ _avoid_recent_recipes (slotCandidates ctx.recipes ctx.config ctx.day_name meal)
          ctx.recent ∧
        (planMealFor ctx meal k).1.recipe_id = some r.id ∧
        (planMealFor ctx meal k).1.recipe_name = some r.name ∧
        (planMealFor ctx meal k).1.total_time_min = some r.total_time_min ∧
        (planMealFor ctx meal k).1.is_leftover = false ∧
        (planMealFor ctx meal k).1.leftover_source_id = none ∧
        (planMealFor ctx meal k).1.leftover_source_name = none ∧
        (planMealFor ctx meal k).2.2 = pendOf ctx.day_index r)) := by
  simp only [planMealFor]
  cases hl : alookup ctx.leftover_meals meal with
  | some lr =>
    exact ⟨by trivial, by trivial, Or.inl ⟨lr, by trivial, by trivial, by trivial,
      by trivial, by trivial, by trivial, by trivial, by trivial⟩⟩
  | none =>
    by_cases hs : meal ∈ ctx.skip
    · simp only [if_pos hs]
      exact ⟨by trivial, by trivial, Or.inr (Or.inl ⟨by trivial, hs, by trivial,
        by trivial, by trivial, by trivial, by trivial, by trivial, by trivial⟩)⟩
    · simp only [if_neg hs]
      cases hc : (_choose_recipe
          (_avoid_recent_recipes
            (slotCandidates ctx.recipes ctx.config ctx.day_name meal) ctx.recent)
          ctx.g k).1 with
      | none =>
        exact ⟨by trivial, by trivial, Or.inr (Or.inr (Or.inl
          ⟨by trivial, hs, by trivial, by trivial, by trivial, by trivial, by trivial,
           by trivial, by trivial, _choose_recipe_none hc⟩))⟩
      | some r =>
        exact ⟨by trivial, by trivial, Or.inr (Or.inr (Or.inr
          ⟨r, by trivial, hs, _choose_recipe_mem hc, by trivial, by trivial, by trivial,
           by trivial, by trivial, by trivial, by trivial⟩))⟩

/-! ### Structure of the slot and day lists -/

theorem planMeals_map_meal_type (ctx : DayCtx) (L : List String) :
    ∀ (k : ℕ) (P : PendingMap),
      (planMeals ctx L k P).1.map PlanMeal.meal_type = L := by
  induction L with
  | nil => intro k P; rfl
  | cons meal rest ih =>
    intro k P
    simp only [planMeals, List.map_cons]
    rw [(planMealFor_spec ctx meal k).1, ih]

theorem planMeals_mem (ctx : DayCtx) (L : List String) :
    ∀ (k : ℕ) (P : PendingMap) {slot : PlanMeal},
      slot ∈ (planMeals ctx L k P).1 →
      ∃ m k', m ∈ L ∧ slot = (planMealFor ctx m k').1 := by
  induction L with
  | nil =>
    intro k P slot h
    exact absurd h (by simp [planMeals])
  | cons meal rest ih =>
    intro k P slot h
    simp only [planMeals] at h
    rcases List.mem_cons.mp h with h1 | h2
    · exact ⟨meal, k, List.mem_cons_self _ _, h1⟩
    · obtain ⟨m, k', hm, he⟩ := ih _ _ h2
      exact ⟨m, k', List.mem_cons_of_mem _ hm, he⟩

theorem planDays_shape (recipes : List Recipe) (config : WeekConfig)
    (recent : List String) (g : ℕ → ℕ) (ds : List String) :
    ∀ (idx k : ℕ) (P : PendingMap),
      (planDays recipes config recent g ds idx k P).1.map
          (fun d => (d.day_name, d.meals.map PlanMeal.meal_type)) =
        ds.map (fun dn => (dn, MEAL_TYPES)) := by
  induction ds with
  | nil => intro idx k P; rfl
  | cons dn rest ih =>
    intro idx k P
    simp only [planDays, dayStep, List.map_cons]
    rw [planMeals_map_meal_type, ih]

theorem planDays_map_day_name (recipes : List Recipe) (config : WeekConfig)
    (recent : List String) (g : ℕ → ℕ) (ds : List String) :
    ∀ (idx k : ℕ) (P : PendingMap),
      (planDays recipes config recent g ds idx k P).1.map PlanDay.day_name = ds := by
  induction ds with
  | nil => intro idx k P; rfl
  | cons dn rest ih =>
    intro idx k P
    simp only [planDays, dayStep, List.map_cons]
    rw [ih]

theorem planDays_mem (recipes : List Recipe) (config : WeekConfig)
    (recent : List String) (g : ℕ → ℕ) (ds : List String) :
    ∀ (idx k : ℕ) (P : PendingMap) {d : PlanDay},
      d ∈ (planDays recipes config recent g ds idx k P).1 →
      ∃ dn idx' k' P', dn ∈ ds ∧
        d = (dayStep recipes config recent g dn idx' k' P').1 := by
  induction ds with
  | nil =>
    intro idx k P d h
    exact absurd h (by simp [planDays])
  | cons dn rest ih =>
    intro idx k P d h
    simp only [planDays] at h
    rcases List.mem_cons.mp h with h1 | h2
    · exact ⟨dn, idx, k, P, List.mem_cons_self _ _, h1⟩
    · obtain ⟨dn', i', k', P', hm, he⟩ := ih _ _ _ h2
      exact ⟨dn', i', k', P', List.mem_cons_of_mem _ hm, he⟩

theorem generate_plan_days (recipes : List Recipe) (config : WeekConfig)
    (history : Option (List HistEntry)) (seed : Option ℤ) (g : ℕ → ℕ) (now : String) :
    (generate_plan recipes config history seed g now).days =
      (planDays recipes config (_gather_recent_history history config) g
        DAY_NAMES 0 0 []).1 := rfl

/-! ### Finding named days and slots -/

theorem findDay_some {l : List PlanDay} {day : String} {d : PlanDay}
    (h : findDay l day = some d) : d ∈ l ∧ d.day_name = day := by
  induction l with
  | nil => simp [findDay] at h
  | cons a rest ih =>
    simp only [findDay] at h
    by_cases ha : a.day_name = day
    · rw [if_pos ha] at h
      injection h with h'
      subst h'
      exact ⟨List.mem_cons_self _ _, ha⟩
    · rw [if_neg ha] at h
      obtain ⟨hm, he⟩ := ih h
      exact ⟨List.mem_cons_of_mem _ hm, he⟩

theorem findMeal_some {l : List PlanMeal} {meal : String} {s : PlanMeal}
    (h : findMeal l meal = some s) : s ∈ l ∧ s.meal_type = meal := by
  induction l with
  | nil => simp [findMeal] at h
  | cons a rest ih =>
    simp only [findMeal] at h
    by_cases ha : a.meal_type = meal
    · rw [if_pos ha] at h
      injection h with h'
      subst h'
      exact ⟨List.mem_cons_self _ _, ha⟩
    · rw [if_neg ha] at h
      obtain ⟨hm, he⟩ := ih h
      exact ⟨List.mem_cons_of_mem _ hm, he⟩

theorem findDay_exists {l : List PlanDay} {day : String}
    (h : day ∈ l.map PlanDay.day_name) : ∃ d, findDay l day = some d := by
  induction l with
  | nil => simp at h
  | cons a rest ih =>
    by_cases ha : a.day_name = day
    · exact ⟨a, by simp [findDay, ha]⟩
    · simp only [List.map_cons, List.mem_cons] at h
      rcases h with h1 | h2
      · exact absurd h1.symm ha
      · obtain ⟨d, hd⟩ := ih h2
        exact ⟨d, by simp [findDay, ha, hd]⟩

theorem findMeal_exists {l : List PlanMeal} {meal : String}
    (h : meal ∈ l.map PlanMeal.meal_type) : ∃ s, findMeal l meal = some s := by
  induction l with
  | nil => simp at h
  | cons a rest ih =>
    by_cases ha : a.meal_type = meal
    · exact ⟨a, by simp [findMeal, ha]⟩
    · simp only [List.map_cons, List.mem_cons] at h
      rcases h with h1 | h2
      · exact absurd h1.symm ha
      · obtain ⟨s, hs⟩ := ih h2
        exact ⟨s, by simp [findMeal, ha, hs]⟩

/-- Any slot retrieved from a generated plan by day name and meal type is
the output of planMealFor in a day context whose fixed fields agree with
the inputs. -/
theorem slot_spec {recipes : List Recipe} {config : WeekConfig}
    {history : Option (List HistEntry)} {seed : Option ℤ} {g : ℕ → ℕ} {now : String}
    {day meal : String} {slot : PlanMeal}
    (h : slotOf (generate_plan recipes config history seed g now) day meal = some slot) :
    ∃ ctx k, ctx.recipes = recipes ∧ ctx.config = config ∧
      ctx.recent = _gather_recent_history history config ∧
      ctx.day_name = day ∧ ctx.skip = skipSetFor config day ∧
      slot = (planMealFor ctx meal k).1 := by
  unfold slotOf at h
  rw [Option.bind_eq_some] at h
  obtain ⟨d, hd, hm⟩ := h
  rw [generate_plan_days] at hd
  obtain ⟨hdm, hdn⟩ := findDay_some hd
  obtain ⟨dn, idx', k', P', _, hde⟩ := planDays_mem _ _ _ _ _ _ _ _ hdm
  have hname : dn = day := by
    rw [hde] at hdn
    exact hdn
  obtain ⟨hsm, hst⟩ := findMeal_some hm
  rw [hde] at hsm
  obtain ⟨m, k'', hmm, hse⟩ :=
    planMeals_mem (dayCtxFor recipes config
      (_gather_recent_history history config) g dn idx' P') MEAL_TYPES _ _ hsm
  have hmeal : m = meal := by
    have := (planMealFor_spec (dayCtxFor recipes config
      (_gather_recent_history history config) g dn idx' P') m k'').1
    rw [← hse] at this
    rw [← this, hst]
  subst hmeal hname
  exact ⟨_, k'', rfl, rfl, rfl, rfl, rfl, hse⟩

/-! ### Lemmas about the recency gathering -/

theorem gather_step_mono {ws win : ℤ} {acc : List String} {e : HistEntry} {x : String}
    (h : x ∈ acc) : x ∈ _gather_step ws win acc e := by
  cases hwk : e.week with
  | none =>
    simp only [_gather_step, hwk]
    exact h
  | some d =>
    simp only [_gather_step, hwk]
    by_cases hw : win ≤ 0
    · rw [if_pos hw]
      exact List.mem_append_left _ h
    · rw [if_neg hw]
      by_cases hd : 0 < Int.fdiv (ws - d) 7 ∧ Int.fdiv (ws - d) 7 ≤ win
      · rw [if_pos hd]
        exact List.mem_append_left _ h
      · rw [if_neg hd]
        exact h

theorem gather_foldl_mono {ws win : ℤ} (l : List HistEntry) :
    ∀ (acc : List String) {x : String}, x ∈ acc →
      x ∈ l.foldl (_gather_step ws win) acc := by
  induction l with
  | nil => intro acc x h; exact h
  | cons e rest ih =>
    intro acc x h
    exact ih _ (gather_step_mono h)

theorem gather_zero_mem {ws win : ℤ} (hwin : win ≤ 0) (l : List HistEntry) :
    ∀ (acc : List String) {e : HistEntry}, e ∈ l → ∀ {w : ℤ}, e.week = some w →
      ∀ {rid : String}, rid ∈ e.recipes →
        rid ∈ l.foldl (_gather_step ws win) acc := by
  induction l with
  | nil => intro acc e he; exact absurd he (by simp)
  | cons a rest ih =>
    intro acc e he w hw rid hr
    rcases List.mem_cons.mp he with h1 | h2
    · subst h1
      refine gather_foldl_mono rest _ ?_
      simp only [_gather_step, hw]
      rw [if_pos hwin]
      exact List.mem_append_right _ hr
    · exact ih _ h2 hw hr

/-! ### Tracking the pending lunch leftover across a day -/

theorem planMealFor_pend_not_lunch (ctx : DayCtx) (meal : String) (k : ℕ)
    (hno : ¬ lunchProducerSlot ctx.recipes (planMealFor ctx meal k).1) :
    (planMealFor ctx meal k).2.2 = none ∨
      ∃ mr r, (planMealFor ctx meal k).2.2 = some (mr, r) ∧ mr ≠ "lunch" := by
  have spec := planMealFor_spec ctx meal k
  rcases spec.2.2 with ⟨lr, -, -, -, -, -, -, -, hp⟩ | ⟨-, -, -, -, -, -, -, -, hp⟩ |
    ⟨-, -, -, -, -, -, -, -, hp, -⟩ | ⟨r, -, -, hmem, hid, -, -, -, -, -, hp⟩
  · exact Or.inl hp
  · exact Or.inl hp
  · exact Or.inl hp
  · have hrr : r ∈ ctx.recipes :=
      mem_recipes_of_mem_slotCandidates (mem_of_mem_avoid hmem)
    have hnotflag : ¬(r.produces_leftovers = true ∧
        r.leftovers_replace_meal = some "lunch") := by
      intro hflag
      exact hno ⟨r.id, hid, r, hrr, rfl, hflag.1, hflag.2⟩
    rw [hp]
    cases hrm : r.leftovers_replace_meal with
    | none => exact Or.inl (by simp only [pendOf, hrm])
    | some mr =>
      simp only [pendOf, hrm]
      by_cases hcond : r.produces_leftovers = true ∧ mr ∈ MEAL_TYPES ∧
          ctx.day_index + 1 < DAY_NAMES.length
      · rw [if_pos hcond]
        refine Or.inr ⟨mr, r, rfl, ?_⟩
        intro heq
        subst heq
        exact hnotflag ⟨hcond.1, hrm⟩
      · rw [if_neg hcond]
        exact Or.inl rfl

theorem applyPend_preserve (idx : ℕ) (P : PendingMap)
    (pend : Option (String × Recipe))
    (h : pend = none ∨ ∃ mr r, pend = some (mr, r) ∧ mr ≠ "lunch") (day : String) :
    pendingFor (applyPend idx P pend) day "lunch" = pendingFor P day "lunch" := by
  rcases h with h | ⟨mr, r, h, hne⟩
  · subst h
    rfl
  · subst h
    unfold applyPend pendingFor
    by_cases hd : day = DAY_NAMES.getD (idx + 1) ""
    · rw [hd, alookup_assocInsert_self, Option.getD_some,
        alookup_assocInsert_ne _ _ _ _ (Ne.symm hne)]
    · rw [alookup_assocInsert_ne _ _ _ _ hd]

theorem applyPend_set (idx : ℕ) (P : PendingMap) (r : Recipe) :
    pendingFor (applyPend idx P (some ("lunch", r))) (DAY_NAMES.getD (idx + 1) "")
      "lunch" = some r := by
  unfold applyPend pendingFor
  rw [alookup_assocInsert_self, Option.getD_some, alookup_assocInsert_self]

theorem planMeals_pend_preserve (ctx : DayCtx) (L : List String) :
    ∀ (k : ℕ) (P : PendingMap),
      (∀ slot ∈ (planMeals ctx L k P).1, ¬ lunchProducerSlot ctx.recipes slot) →
      ∀ day,
        pendingFor (planMeals ctx L k P).2.2 day "lunch" =
          pendingFor P day "lunch" := by
  induction L with
  | nil =>
    intro k P h day
    rfl
  | cons m rest ih =>
    intro k P h day
    have hhead : ¬ lunchProducerSlot ctx.recipes (planMealFor ctx m k).1 := by
      apply h
      exact List.mem_cons_self _ _
    have htail : ∀ slot ∈ (planMeals ctx rest (planMealFor ctx m k).2.1
        (applyPend ctx.day_index P (planMealFor ctx m k).2.2)).1,
        ¬ lunchProducerSlot ctx.recipes slot := by
      intro slot hs
      apply h
      exact List.mem_cons_of_mem _ hs
    have h1 := ih (planMealFor ctx m k).2.1
      (applyPend ctx.day_index P (planMealFor ctx m k).2.2) htail day
    have h2 := applyPend_preserve ctx.day_index P _
      (planMealFor_pend_not_lunch ctx m k hhead) day
    exact h1.trans h2

theorem planMeals_pend_set (ctx : DayCtx) (L : List String) :
    ∀ (k : ℕ) (P : PendingMap) (S1 S2 : List PlanMeal) (sl : PlanMeal) (r : Recipe),
      (planMeals ctx L k P).1 = S1 ++ sl :: S2 →
      sl.recipe_id = some r.id →
      (∀ r' ∈ ctx.recipes, r'.id = r.id → r' = r) →
      r.produces_leftovers = true →
      r.leftovers_replace_meal = some "lunch" →
      ctx.day_index + 1 < DAY_NAMES.length →
      (∀ s ∈ S1, ¬ lunchProducerSlot ctx.recipes s) →
      (∀ s ∈ S2, ¬ lunchProducerSlot ctx.recipes s) →
      pendingFor (planMeals ctx L k P).2.2 (DAY_NAMES.getD (ctx.day_index + 1) "")
        "lunch" = some r := by
  induction L with
  | nil =>
    intro k P S1 S2 sl r heq
    exact absurd heq (by cases S1 <;> simp [planMeals])
  | cons m rest ih =>
    intro k P S1 S2 sl r heq hid huniq hprod hrep hday hS1 hS2
    cases S1 with
    | nil =>
      simp only [planMeals, List.nil_append] at heq
      injection heq with hhead htail
      have spec := planMealFor_spec ctx m k
      rw [hhead] at spec
      rcases spec.2.2 with ⟨lr, -, h1, -⟩ | ⟨-, -, h1, -⟩ | ⟨-, -, h1, -⟩ |
        ⟨rx, -, -, hmem, hidx, -, -, -, -, -, hp⟩
      · rw [h1] at hid
        exact absurd hid (by simp)
      · rw [h1] at hid
        exact absurd hid (by simp)
      · rw [h1] at hid
        exact absurd hid (by simp)
      · have hrr : rx ∈ ctx.recipes :=
          mem_recipes_of_mem_slotCandidates (mem_of_mem_avoid hmem)
        rw [hidx] at hid
        injection hid with hid'
        have hrx : rx = r := huniq rx hrr hid'
        subst hrx
        have hpend : (planMealFor ctx m k).2.2 = some ("lunch", rx) := by
          rw [hp]
          simp only [pendOf, hrep]
          rw [if_pos ⟨hprod, by decide, hday⟩]
        have hpres := planMeals_pend_preserve ctx rest (planMealFor ctx m k).2.1
          (applyPend ctx.day_index P (planMealFor ctx m k).2.2)
          (by
            intro s hs
            rw [htail] at hs
            exact hS2 s hs)
          (DAY_NAMES.getD (ctx.day_index + 1) "")
        refine hpres.trans ?_
        rw [hpend]
        exact applyPend_set ctx.day_index P rx
      | cons s S1' =>
        simp only [planMeals, List.cons_append] at heq
        injection heq with hhead htail
        exact ih (planMealFor ctx m k).2.1
          (applyPend ctx.day_index P (planMealFor ctx m k).2.2) S1' S2 sl r htail hid
          huniq hprod hrep hday
          (fun s' hs' => hS1 s' (List.mem_cons_of_mem _ hs')) hS2

/-! ### Adjacent days and positional access -/

theorem getD_of_getElem? {l : List String} {n : ℕ} {x : String} (h : l[n]? = some x) :
    l.getD n "" = x := by
  rw [List.getD_eq_getElem?_getD, h]
  rfl

theorem planDays_adjacent (recipes : List Recipe) (config : WeekConfig)
    (recent : List String) (g : ℕ → ℕ) :
    ∀ (N : ℕ) (ds : List String) (idx k : ℕ) (P : PendingMap),
      N + 1 < ds.length →
      ∃ k₀ P₀ dn dn1,
        ds[N]? = some dn ∧ ds[N + 1]? = some dn1 ∧
        (planDays recipes config recent g ds idx k P).1[N]? =
          some (dayStep recipes config recent g dn (idx + N) k₀ P₀).1 ∧
        (planDays recipes config recent g ds idx k P).1[N + 1]? =
          some (dayStep recipes config recent g dn1 (idx + N + 1)
            (dayStep recipes config recent g dn (idx + N) k₀ P₀).2.1
            (dayStep recipes config recent g dn (idx + N) k₀ P₀).2.2).1 := by
  intro N
  induction N with
  | zero =>
    intro ds idx k P hlen
    cases ds with
    | nil => simp at hlen
    | cons d0 ds' =>
      cases ds' with
      | nil => simp at hlen
      | cons d1 rest =>
        refine ⟨k, P, d0, d1, rfl, by simp, ?_, ?_⟩
        · simp [planDays]
        · simp [planDays]
  | succ n ih =>
    intro ds idx k P hlen
    cases ds with
    | nil => simp at hlen
    | cons d0 rest =>
      have hlen' : n + 1 < rest.length := by
        simp only [List.length_cons] at hlen
        omega
      obtain ⟨k₀, P₀, dn, dn1, h1, h2, h3, h4⟩ := ih rest (idx + 1)
        (dayStep recipes config recent g d0 idx k P).2.1
        (dayStep recipes config recent g d0 idx k P).2.2 hlen'
      have e1 : idx + 1 + n = idx + (n + 1) := by omega
      have e2 : idx + 1 + n + 1 = idx + (n + 1) + 1 := by omega
      rw [e2] at h4
      rw [e1] at h3 h4
      refine ⟨k₀, P₀, dn, dn1, ?_, ?_, ?_, ?_⟩
      · simp only [List.getElem?_cons_succ]
        exact h1
      · simp only [List.getElem?_cons_succ]
        exact h2
      · simp only [planDays, List.getElem?_cons_succ]
        exact h3
      · simp only [planDays, List.getElem?_cons_succ]
        exact h4

theorem findDay_eq_getElem {l : List PlanDay} {ns : List String}
    (hmap : l.map PlanDay.day_name = ns) (hnd : ns.Nodup) :
    ∀ {N : ℕ} {dn : String}, ns[N]? = some dn → findDay l dn = l[N]? := by
  induction l generalizing ns with
  | nil =>
    intro N dn hg
    rw [← hmap] at hg
    simp at hg
  | cons a rest ih =>
    intro N dn hg
    subst hmap
    cases N with
    | zero =>
      simp only [List.map_cons, List.getElem?_cons_zero] at hg
      injection hg with hg'
      unfold findDay
      rw [if_pos hg', List.getElem?_cons_zero]
    | succ n =>
      simp only [List.map_cons, List.getElem?_cons_succ] at hg
      simp only [List.map_cons, List.nodup_cons] at hnd
      have hne : a.day_name ≠ dn := by
        intro he
        exact hnd.1 (he ▸ List.getElem?_mem hg)
      unfold findDay
      rw [if_neg hne, List.getElem?_cons_succ]
      exact ih rfl hnd.2 hg

theorem findMeal_eq_getElem {l : List PlanMeal} {ns : List String}
    (hmap : l.map PlanMeal.meal_type = ns) (hnd : ns.Nodup) :
    ∀ {N : ℕ} {mt : String}, ns[N]? = some mt → findMeal l mt = l[N]? := by
  induction l generalizing ns with
  | nil =>
    intro N mt hg
    rw [← hmap] at hg
    simp at hg
  | cons a rest ih =>
    intro N mt hg
    subst hmap
    cases N with
    | zero =>
      simp only [List.map_cons, List.getElem?_cons_zero] at hg
      injection hg with hg'
      unfold findMeal
      rw [if_pos hg', List.getElem?_cons_zero]
    | succ n =>
      simp only [List.map_cons, List.getElem?_cons_succ] at hg
      simp only [List.map_cons, List.nodup_cons] at hnd
      have hne : a.meal_type ≠ mt := by
        intro he
        exact hnd.1 (he ▸ List.getElem?_mem hg)
      unfold findMeal
      rw [if_neg hne, List.getElem?_cons_succ]
      exact ih rfl hnd.2 hg

theorem planMeals_getElem (ctx : DayCtx) (L : List String) :
    ∀ (k : ℕ) (P : PendingMap) (n : ℕ) (m : String), L[n]? = some m →
      ∃ k', ((planMeals ctx L k P).1)[n]? = some (planMealFor ctx m k').1 := by
  induction L with
  | nil =>
    intro k P n m hg
    simp at hg
  | cons m0 rest ih =>
    intro k P n m hg
    cases n with
    | zero =>
      simp only [List.getElem?_cons_zero] at hg
      injection hg with hg'
      subst hg'
      exact ⟨k, by simp only [planMeals, List.getElem?_cons_zero]⟩
    | succ n' =>
      simp only [List.getElem?_cons_succ] at hg
      obtain ⟨k', hk⟩ := ih (planMealFor ctx m0 k).2.1
        (applyPend ctx.day_index P (planMealFor ctx m0 k).2.2) n' m hg
      exact ⟨k', by simp only [planMeals, List.getElem?_cons_succ]; exact hk⟩

theorem findMeal_decomp {S : List PlanMeal} {m : String} {sl : PlanMeal}
    (h : findMeal S m = some sl) :
    ∃ S1 S2, S = S1 ++ sl :: S2 ∧ ∀ s ∈ S1, s.meal_type ≠ m := by
  induction S with
  | nil => simp [findMeal] at h
  | cons a rest ih =>
    simp only [findMeal] at h
    by_cases ha : a.meal_type = m
    · rw [if_pos ha] at h
      injection h with h'
      subst h'
      exact ⟨[], rest, rfl, by simp⟩
    · rw [if_neg ha] at h
      obtain ⟨S1, S2, he, hs⟩ := ih h
      refine ⟨a :: S1, S2, by rw [List.cons_append, ← he], ?_⟩
      intro s hs'
      rcases List.mem_cons.mp hs' with h1 | h2
      · rw [h1]
        exact ha
      · exact hs s h2

theorem findMeal_self {S : List PlanMeal} (hnd : (S.map PlanMeal.meal_type).Nodup) :
    ∀ {s : PlanMeal}, s ∈ S → findMeal S s.meal_type = some s := by
  induction S with
  | nil =>
    intro s hs
    simp at hs
  | cons a rest ih =>
    intro s hs
    simp only [List.map_cons, List.nodup_cons] at hnd
    rcases List.mem_cons.mp hs with h1 | h2
    · subst h1
      unfold findMeal
      rw [if_pos rfl]
    · have hne : a.meal_type ≠ s.meal_type := by
        intro he
        exact hnd.1 (he ▸ List.mem_map_of_mem _ h2)
      unfold findMeal
      rw [if_neg hne]
      exact ih hnd.2 h2

theorem nodup_right_ne {S1 S2 : List PlanMeal} {sl : PlanMeal}
    (hnd : ((S1 ++ sl :: S2).map PlanMeal.meal_type).Nodup) :
    ∀ s ∈ S2, s.meal_type ≠ sl.meal_type := by
  intro s hs he
  rw [List.map_append, List.map_cons] at hnd
  have h2 := (List.nodup_append.mp hnd).2.1
  exact (List.nodup_cons.mp h2).1 (he ▸ List.mem_map_of_mem _ hs)

/-! ### Claim theorems -/

/-- Claim C8: for every valid configuration, catalog and history, the
plan returned by generate_plan contains exactly 7 day entries in the
fixed order Sunday..Saturday, and each day contains exactly 4 meal
entries in the fixed order breakfast, lunch, dinner, snack. -/
theorem C8_plan_shape (recipes : List Recipe) (config : WeekConfig)
    (history : Option (List HistEntry)) (seed : Option ℤ) (g : ℕ → ℕ) (now : String) :
    (generate_plan recipes config history seed g now).days.map PlanDay.day_name =
        DAY_NAMES ∧
      ∀ d ∈ (generate_plan recipes config history seed g now).days,
        d.meals.map PlanMeal.meal_type = MEAL_TYPES := by
  constructor
  · rw [generate_plan_days]
    exact planDays_map_day_name _ _ _ _ _ _ _ _
  · intro d hd
    rw [generate_plan_days] at hd
    obtain ⟨dn, i', k', P', _, hde⟩ := planDays_mem _ _ _ _ _ _ _ _ hd
    rw [hde]
    exact planMeals_map_meal_type _ _ _ _

/-- Claim C4 as stated is false: the produced plan embeds the
generation timestamp (generated_at, from datetime.now), so two
invocations with identical recipes, configuration, history and seed but
different wall-clock instants serialize differently. -/
theorem C4_counterexample :
    generate_plan [] cfgPlain none (some 7) gzero "2025-01-12T00:00:00+00:00" ≠
      generate_plan [] cfgPlain none (some 7) gzero "2025-01-12T00:00:01+00:00" := by
  with_unfolding_all decide

/-- Claim C4 (amended): two invocations of generate_plan with the same
recipes, configuration, history, seed and draw stream agree on every
field of the plan except possibly generated_at — in particular they are
identical whenever the wall-clock strings coincide; and two invocations
differing in seed and draw stream still produce the identical 7-day,
4-slot day/slot skeleton. -/
theorem C4_amended (recipes : List Recipe) (config : WeekConfig)
    (history : Option (List HistEntry)) (seed seed' : Option ℤ) (g g' : ℕ → ℕ)
    (now now' : String) :
    ((generate_plan recipes config history seed g now).days =
        (generate_plan recipes config history seed g now').days ∧
      (generate_plan recipes config history seed g now).week_start_date =
        (generate_plan recipes config history seed g now').week_start_date ∧
      (generate_plan recipes config history seed g now).seed =
        (generate_plan recipes config history seed g now').seed ∧
      (generate_plan recipes config history seed g now).metadata_people =
        (generate_plan recipes config history seed g now').metadata_people ∧
      (generate_plan recipes config history seed g now).metadata_variability_window_weeks =
        (generate_plan recipes config history seed g now').metadata_variability_window_weeks ∧
      (generate_plan recipes config history seed g now).metadata_recent_recipes =
        (generate_plan recipes config history seed g now').metadata_recent_recipes ∧
      (generate_plan recipes config history seed g now).summary_yielded_prep_items =
        (generate_plan recipes config history seed g now').summary_yielded_prep_items ∧
      (now = now' →
        generate_plan recipes config history seed g now =
          generate_plan recipes config history seed g now')) ∧
    planShape (generate_plan recipes config history seed g now) =
      planShape (generate_plan recipes config history seed' g' now') := by
  refine ⟨⟨rfl, rfl, rfl, rfl, rfl, rfl, rfl, fun h => by rw [h]⟩, ?_⟩
  unfold planShape
  rw [generate_plan_days, generate_plan_days, planDays_shape, planDays_shape]

/-- Claim C4 (amended), applied: with equal timestamps the two plans are
equal, and with a different seed and draw stream the skeleton matches. -/
theorem C4_amended_witness :
    generate_plan [] cfgPlain none (some 7) gzero "tA" =
        generate_plan [] cfgPlain none (some 7) gzero "tA" ∧
      planShape (generate_plan [] cfgPlain none (some 7) gzero "tA") =
        planShape (generate_plan [] cfgPlain none (some 3) gone "tB") :=
  ⟨(C4_amended [] cfgPlain none (some 7) (some 3) gzero gone "tA" "tA").1.2.2.2.2.2.2.2 rfl,
   (C4_amended [] cfgPlain none (some 7) (some 3) gzero gone "tA" "tB").2⟩

/-- Claim C9: the grocery multiplier never divides by zero — when
servings_per_recipe is zero the multiplier is 1, and the division
people / servings_per_recipe is used exactly when servings_per_recipe
is nonzero. -/
theorem C9_multiplier_guard (config : WeekConfig) (recipe : Recipe) :
    (recipe.servings_per_recipe = 0 → _grocery_multiplier config recipe = 1) ∧
    (recipe.servings_per_recipe ≠ 0 →
      _grocery_multiplier config recipe =
        (config.people : ℚ) / recipe.servings_per_recipe) := by
  constructor
  · intro h
    simp [_grocery_multiplier, h]
  · intro h
    simp [_grocery_multiplier, h]

/-- Claim C9, applied at a zero-servings recipe and a four-servings
recipe. -/
theorem C9_multiplier_guard_witness :
    _grocery_multiplier cfgPlain rZeroServ = 1 ∧
    _grocery_multiplier cfgPlain rFourServ =
      (cfgPlain.people : ℚ) / rFourServ.servings_per_recipe :=
  ⟨(C9_multiplier_guard cfgPlain rZeroServ).1 rfl,
   (C9_multiplier_guard cfgPlain rFourServ).2 (by norm_num [rFourServ, rBfast])⟩

/-- Claim C10 (implicit): the people count is the constant 2 — every
WeekConfig reports people = 2, WeekConfig.from_dict ignores the raw
people key entirely, the plan metadata always records 2, and 2 is the
numerator of the grocery multiplier. -/
theorem C10_people_constant :
    (∀ config : WeekConfig, config.people = 2) ∧
    (∀ (d : ConfigData) (p : Option ℤ),
      WeekConfig.from_dict { d with people := p } = WeekConfig.from_dict d) ∧
    (∀ (recipes : List Recipe) (config : WeekConfig)
        (history : Option (List HistEntry)) (seed : Option ℤ) (g : ℕ → ℕ)
        (now : String),
      (generate_plan recipes config history seed g now).metadata_people = 2) ∧
    (∀ (config : WeekConfig) (recipe : Recipe),
      _grocery_multiplier config recipe =
        if recipe.servings_per_recipe ≠ 0 then (2 : ℚ) / recipe.servings_per_recipe
        else 1) := by
  refine ⟨fun _ => rfl, fun d p => rfl, fun _ _ _ _ _ _ => rfl, fun c r => ?_⟩
  by_cases h : r.servings_per_recipe = 0
  · simp [_grocery_multiplier, h]
  · simp only [_grocery_multiplier, h, if_pos (by exact h), ne_eq, not_false_iff]
    norm_num [WeekConfig.people]

/-- Claim C3: the repository's own grocery test fixture (config with a
people = 4 key, Pasta with servings_per_recipe = 2 and qty = 200
scheduled twice). The code hardcodes people = 2, so the pasta bucket
aggregates to 400 rendered as 400.00 — not the 800 / 800.00 the claim,
the spec and tests/test_groceries.py expect. -/
theorem C3_code_eval :
    (collect_grocery_items planPasta [pastaRecipe] cfgTest).map
        (fun i => (i.item, i.quantity)) =
      [("pasta", 400), ("tomato sauce", 2)] ∧
    build_grocery_table (collect_grocery_items planPasta [pastaRecipe] cfgTest) =
      [["item", "quantity", "unit", "category", "sources"],
       ["pasta", "400.00", "g", "grains", "Sunday Dinner; Monday Dinner"],
       ["tomato sauce", "2.00", "jar", "pantry", "Sunday Dinner; Monday Dinner"]] := by
  constructor
  · with_unfolding_all decide
  · with_unfolding_all decide

/-- Claim C5 as stated is false: leftover precedence is checked before
the skip rule, so a skipped slot that is a pending leftover target is
produced as a leftover (is_leftover true, recipe_name populated), not
as the empty slot the claim requires. Here Sunday's dinner schedules a
lunch leftover although Monday lunch is in the skip set. -/
theorem C5_counterexample :
    "lunch" ∈ skipSetFor cfgSkipMonLunch "Monday" ∧
    (slotOf (generate_plan [rDinnerProd] cfgSkipMonLunch none none gzero "t")
          "Monday" "lunch").map
        (fun s => (s.is_leftover, s.recipe_name, s.leftover_source_id)) =
      some (true, some "Dinner One", some "d1") := by
  constructor
  · with_unfolding_all decide
  · with_unfolding_all decide

/-- Claim C5 (amended): a slot in the day's skip set never receives a
newly selected recipe — its recipe_id and total_time_min are null, and
unless leftover precedence already filled it as a leftover (is_leftover
true), its recipe_name and leftover source fields are null as well. -/
theorem C5_amended (recipes : List Recipe) (config : WeekConfig)
    (history : Option (List HistEntry)) (seed : Option ℤ) (g : ℕ → ℕ) (now : String)
    (day meal : String) (slot : PlanMeal)
    (hskip : meal ∈ skipSetFor config day)
    (hslot : slotOf (generate_plan recipes config history seed g now) day meal =
      some slot) :
    slot.recipe_id = none ∧ slot.total_time_min = none ∧
    (slot.is_leftover = false →
      slot.recipe_name = none ∧ slot.leftover_source_id = none ∧
        slot.leftover_source_name = none) := by
  obtain ⟨ctx, k, hrec, hcfg, hrecent, hdn, hskipEq, hse⟩ := slot_spec hslot
  have spec := planMealFor_spec ctx meal k
  rw [← hse] at spec
  rcases spec.2.2 with ⟨lr, -, h1, -, h3, h4, -, -, -⟩ |
    ⟨-, -, h1, h2, h3, -, h5, h6, -⟩ | ⟨-, -, h1, h2, h3, -, h5, h6, -, -⟩ |
    ⟨r, -, hns, -, -, -, -, -, -, -, -⟩
  · exact ⟨h1, h3, fun hf => absurd (hf.symm.trans h4) Bool.false_ne_true⟩
  · exact ⟨h1, h3, fun _ => ⟨h2, h5, h6⟩⟩
  · exact ⟨h1, h3, fun _ => ⟨h2, h5, h6⟩⟩
  · exact absurd (by rw [hskipEq]; exact hskip) hns

/-- Claim C5 (amended), applied at a skipped Tuesday snack with no
leftover in flight: the slot is fully empty. -/
theorem C5_amended_witness :
    "snack" ∈ skipSetFor cfgSkipTueSnack "Tuesday" ∧
    (slotOf (generate_plan [rBfast] cfgSkipTueSnack none none gzero "t")
        "Tuesday" "snack").map PlanMeal.recipe_id = some none := by
  have hskip : "snack" ∈ skipSetFor cfgSkipTueSnack "Tuesday" := by
    with_unfolding_all decide
  have hslot : slotOf (generate_plan [rBfast] cfgSkipTueSnack none none gzero "t")
      "Tuesday" "snack" =
      some { day_name := "Tuesday", date := 2, meal_type := "snack"
             recipe_id := none, recipe_name := none, total_time_min := none } := by
    with_unfolding_all decide
  refine ⟨hskip, ?_⟩
  rw [hslot]
  exact congrArg some
    ((C5_amended [rBfast] cfgSkipTueSnack none none gzero "t" "Tuesday" "snack" _
        hskip hslot).1)

/-- Claim C6: on a day whose high-effort-dinner allowance is false (or
absent), a recipe selected for the dinner slot always has
total_time_min at most the 30-minute threshold, recency fallback
included. -/
theorem C6_low_effort_dinner (recipes : List Recipe) (config : WeekConfig)
    (history : Option (List HistEntry)) (seed : Option ℤ) (g : ℕ → ℕ) (now : String)
    (day : String) (hallow : config.allows_high_effort_dinner day = false) :
    ∀ t : ℚ,
      (slotOf (generate_plan recipes config history seed g now) day "dinner").bind
          PlanMeal.total_time_min = some t →
      t ≤ HIGH_EFFORT_THRESHOLD_MIN := by
  intro t ht
  rw [Option.bind_eq_some] at ht
  obtain ⟨slot, hslot, htot⟩ := ht
  obtain ⟨ctx, k, hrec, hcfg, hrecent, hdn, hskipEq, hse⟩ := slot_spec hslot
  have spec := planMealFor_spec ctx "dinner" k
  rw [← hse] at spec
  rcases spec.2.2 with ⟨lr, -, -, -, h3, -, -, -, -⟩ | ⟨-, -, -, -, h3, -, -, -, -⟩ |
    ⟨-, -, -, -, h3, -, -, -, -, -⟩ | ⟨r, -, -, hmem, -, -, h3, -, -, -, -⟩
  · rw [h3] at htot
    exact absurd htot (by simp)
  · rw [h3] at htot
    exact absurd htot (by simp)
  · rw [h3] at htot
    exact absurd htot (by simp)
  · rw [h3] at htot
    injection htot with htot'
    subst htot'
    have hc := mem_of_mem_avoid hmem
    rw [hrec, hcfg, hdn] at hc
    exact slotCandidates_dinner_le hallow hc

/-- Claim C6, applied: with a 60-minute and a 10-minute dinner recipe
and no high-effort allowance, Sunday's dinner takes the quick one and
its time is within the threshold. -/
theorem C6_low_effort_dinner_witness :
    cfgPlain.allows_high_effort_dinner "Sunday" = false ∧
    (slotOf (generate_plan [rDinnerSlow, rDinnerFast] cfgPlain none none gzero "t")
        "Sunday" "dinner").bind PlanMeal.total_time_min = some 10 ∧
    (10 : ℚ) ≤ HIGH_EFFORT_THRESHOLD_MIN := by
  have hallow : cfgPlain.allows_high_effort_dinner "Sunday" = false := by
    with_unfolding_all decide
  have hbind : (slotOf (generate_plan [rDinnerSlow, rDinnerFast] cfgPlain none none
      gzero "t") "Sunday" "dinner").bind PlanMeal.total_time_min = some 10 := by
    with_unfolding_all decide
  exact ⟨hallow, hbind,
    C6_low_effort_dinner [rDinnerSlow, rDinnerFast] cfgPlain none none gzero "t"
      "Sunday" hallow 10 hbind⟩

/-- Claim C7: an unsatisfiable slot is not an error — whenever the
filtered candidate list for a day/meal is empty, the generated plan
still contains that slot, with a null recipe_id (generate_plan is a
total function in this embedding, mirroring the absence of any raise
path for empty candidate lists in the source). -/
theorem C7_empty_candidates (recipes : List Recipe) (config : WeekConfig)
    (history : Option (List HistEntry)) (seed : Option ℤ) (g : ℕ → ℕ) (now : String)
    (day meal : String) (hday : day ∈ DAY_NAMES) (hmeal : meal ∈ MEAL_TYPES)
    (hempty : slotCandidates recipes config day meal = []) :
    ∃ slot,
      slotOf (generate_plan recipes config history seed g now) day meal = some slot ∧
      slot.recipe_id = none := by
  have hnames : (generate_plan recipes config history seed g now).days.map
      PlanDay.day_name = DAY_NAMES := by
    rw [generate_plan_days]
    exact planDays_map_day_name _ _ _ _ _ _ _ _
  have hdaymem : day ∈ (generate_plan recipes config history seed g now).days.map
      PlanDay.day_name := by
    rw [hnames]
    exact hday
  obtain ⟨d, hd⟩ := findDay_exists hdaymem
  have hdmem := (findDay_some hd).1
  rw [generate_plan_days] at hdmem
  obtain ⟨dn, i', k', P', -, hde⟩ := planDays_mem _ _ _ _ _ _ _ _ hdmem
  have hmt : d.meals.map PlanMeal.meal_type = MEAL_TYPES := by
    rw [hde]
    exact planMeals_map_meal_type _ _ _ _
  have hmealmem : meal ∈ d.meals.map PlanMeal.meal_type := by
    rw [hmt]
    exact hmeal
  obtain ⟨s, hs⟩ := findMeal_exists hmealmem
  have hslot : slotOf (generate_plan recipes config history seed g now) day meal =
      some s := by
    unfold slotOf
    rw [hd]
    exact hs
  refine ⟨s, hslot, ?_⟩
  obtain ⟨ctx, k, hrec, hcfg, -, hdn, -, hse⟩ := slot_spec hslot
  have spec := planMealFor_spec ctx meal k
  rw [← hse] at spec
  rcases spec.2.2 with ⟨lr, -, h1, -⟩ | ⟨-, -, h1, -⟩ | ⟨-, -, h1, -⟩ |
    ⟨r, -, -, hmem, -⟩
  · exact h1
  · exact h1
  · exact h1
  · exfalso
    rw [hrec, hcfg, hdn, hempty] at hmem
    have : _avoid_recent_recipes ([] : List Recipe) ctx.recent = [] := rfl
    rw [this] at hmem
    exact absurd hmem (by simp)

/-- Claim C7, applied at an empty catalog: the Sunday breakfast slot
exists and is empty. -/
theorem C7_empty_candidates_witness :
    ∃ slot,
      slotOf (generate_plan [] cfgPlain none none gzero "t") "Sunday" "breakfast" =
        some slot ∧
      slot.recipe_id = none :=
  C7_empty_candidates [] cfgPlain none none gzero "t" "Sunday" "breakfast"
    (by with_unfolding_all decide) (by with_unfolding_all decide)
    (by with_unfolding_all decide)

/-- Claim C2: with variability_window_weeks = 0, every recipe id of
every parseable history entry is recency-forbidden, and a forbidden
recipe is only ever selected when dropping the forbidden ids would have
emptied that slot's candidate list — in which case the recency filter
is skipped and the pre-removal candidate list is used unchanged. -/
theorem C2_recency_window_zero (recipes : List Recipe) (config : WeekConfig)
    (entries : List HistEntry) (seed : Option ℤ) (g : ℕ → ℕ) (now : String)
    (hwin : config.variability_window_weeks = 0) :
    (∀ e ∈ entries, ∀ w : ℤ, e.week = some w → ∀ rid ∈ e.recipes,
      rid ∈ _gather_recent_history (some entries) config) ∧
    (∀ day meal rid,
      (slotOf (generate_plan recipes config (some entries) seed g now) day
          meal).bind PlanMeal.recipe_id = some rid →
      rid ∈ _gather_recent_history (some entries) config →
      (slotCandidates recipes config day meal).filter
          (fun r => decide (r.id ∉ _gather_recent_history (some entries) config)) =
        [] ∧
      _avoid_recent_recipes (slotCandidates recipes config day meal)
          (_gather_recent_history (some entries) config) =
        slotCandidates recipes config day meal) := by
  constructor
  · intro e he w hw rid hr
    unfold _gather_recent_history
    exact gather_zero_mem (by rw [hwin]) entries [] he hw hr
  · intro day meal rid hbind hforb
    rw [Option.bind_eq_some] at hbind
    obtain ⟨slot, hslot, hid⟩ := hbind
    obtain ⟨ctx, k, hrec, hcfg, hrecent, hdn, -, hse⟩ := slot_spec hslot
    have spec := planMealFor_spec ctx meal k
    rw [← hse] at spec
    rcases spec.2.2 with ⟨lr, -, h1, -⟩ | ⟨-, -, h1, -⟩ | ⟨-, -, h1, -⟩ |
      ⟨r, -, -, hmem, h4, -⟩
    · rw [h1] at hid
      exact absurd hid (by simp)
    · rw [h1] at hid
      exact absurd hid (by simp)
    · rw [h1] at hid
      exact absurd hid (by simp)
    · rw [h4] at hid
      injection hid with hid'
      rw [hrec, hcfg, hdn, hrecent] at hmem
      by_cases hf : (slotCandidates recipes config day meal).filter
          (fun r => decide (r.id ∉ _gather_recent_history (some entries) config)) = []
      · exact ⟨hf, avoid_eq_of_filter_nil hf⟩
      · exfalso
        exact avoid_id_not_forbidden hmem hf (hid' ▸ hforb)

/-- Claim C1 as stated is false: a later leftover-producing selection on
the same day overwrites the pending lunch entry. Here Sunday breakfast
selects r1 (produces_leftovers, leftovers_replace_meal = lunch), yet
Monday's lunch leftover references r2, the dinner selected later that
day, not r1. -/
theorem C1_counterexample :
    rBfastProd.produces_leftovers = true ∧
    rBfastProd.leftovers_replace_meal = some "lunch" ∧
    (slotOf (generate_plan [rBfastProd, rDinnerProd2] cfgPlain none none gzero "t")
        "Sunday" "breakfast").bind PlanMeal.recipe_id = some rBfastProd.id ∧
    (slotOf (generate_plan [rBfastProd, rDinnerProd2] cfgPlain none none gzero "t")
          "Monday" "lunch").map
        (fun s => (s.is_leftover, s.leftover_source_id, s.leftover_source_name)) =
      some (true, some "r2", some "Dinner Prod") ∧
    (slotOf (generate_plan [rBfastProd, rDinnerProd2] cfgPlain none none gzero "t")
        "Monday" "lunch").bind PlanMeal.leftover_source_id ≠ some rBfastProd.id := by
  refine ⟨rfl, rfl, ?_, ?_, ?_⟩
  · with_unfolding_all decide
  · with_unfolding_all decide
  · with_unfolding_all decide

/-- Claim C1 (amended): if generate_plan selects on day N (N before
Saturday) a recipe r with produces_leftovers = true and
leftovers_replace_meal = "lunch" whose id is unique in the catalog, and
no other slot of day N selects a recipe with those leftover flags, then
day N+1's lunch slot is a leftover with recipe_id null and
leftover_source_id/name equal to r's id/name — regardless of any skip
rule on day N+1's lunch (leftover precedence is checked before
skip-checking); when several slots of day N schedule a lunch leftover,
the last such selection wins instead. -/
theorem C1_amended (recipes : List Recipe) (config : WeekConfig)
    (history : Option (List HistEntry)) (seed : Option ℤ) (g : ℕ → ℕ) (now : String)
    (N : ℕ) (r : Recipe) (m : String)
    (hN : N + 1 < 7)
    (hmem : r ∈ recipes)
    (huniq : ∀ r' ∈ recipes, r'.id = r.id → r' = r)
    (hprod : r.produces_leftovers = true)
    (hrep : r.leftovers_replace_meal = some "lunch")
    (hsel : (slotOf (generate_plan recipes config history seed g now)
        (DAY_NAMES.getD N "") m).bind PlanMeal.recipe_id = some r.id)
    (honly : ∀ m' ∈ MEAL_TYPES, m' ≠ m → ∀ rid : String,
      (slotOf (generate_plan recipes config history seed g now)
          (DAY_NAMES.getD N "") m').bind PlanMeal.recipe_id = some rid →
      ∀ r' ∈ recipes, r'.id = rid →
        ¬(r'.produces_leftovers = true ∧ r'.leftovers_replace_meal = some "lunch")) :
    ∃ slot,
      slotOf (generate_plan recipes config history seed g now)
          (DAY_NAMES.getD (N + 1) "") "lunch" = some slot ∧
        slot.is_leftover = true ∧ slot.recipe_id = none ∧
        slot.leftover_source_id = some r.id ∧
        slot.leftover_source_name = some r.name := by
  have hlen : N + 1 < DAY_NAMES.length := by simpa using hN
  obtain ⟨k₀, P₀, dn, dn1, hg1, hg2, hd3, hd4⟩ :=
    planDays_adjacent recipes config (_gather_recent_history history config) g N
      DAY_NAMES 0 0 [] hlen
  rw [Nat.zero_add] at hd3 hd4
  have hdN : DAY_NAMES.getD N "" = dn := getD_of_getElem? hg1
  have hdN1 : DAY_NAMES.getD (N + 1) "" = dn1 := getD_of_getElem? hg2
  have hnames : (generate_plan recipes config history seed g now).days.map
      PlanDay.day_name = DAY_NAMES := by
    rw [generate_plan_days]
    exact planDays_map_day_name _ _ _ _ _ _ _ _
  have hDAYnodup : DAY_NAMES.Nodup := by decide
  have hmnodup : MEAL_TYPES.Nodup := by decide
  have hfdN : findDay (generate_plan recipes config history seed g now).days dn =
      some (dayStep recipes config (_gather_recent_history history config) g dn N
        k₀ P₀).1 := by
    have h := findDay_eq_getElem hnames hDAYnodup hg1
    rw [h, generate_plan_days, hd3]
  have hfdN1 : findDay (generate_plan recipes config history seed g now).days dn1 =
      some (dayStep recipes config (_gather_recent_history history config) g dn1
        (N + 1)
        (dayStep recipes config (_gather_recent_history history config) g dn N
          k₀ P₀).2.1
        (dayStep recipes config (_gather_recent_history history config) g dn N
          k₀ P₀).2.2).1 := by
    have h := findDay_eq_getElem hnames hDAYnodup hg2
    rw [h, generate_plan_days, hd4]
  have hslotN : ∀ mt : String,
      slotOf (generate_plan recipes config history seed g now) dn mt =
        findMeal (dayStep recipes config (_gather_recent_history history config) g
          dn N k₀ P₀).1.meals mt := by
    intro mt
    unfold slotOf
    rw [hfdN]
    rfl
  rw [hdN, hslotN] at hsel
  obtain ⟨sl, hfm, hslid⟩ := Option.bind_eq_some.mp hsel
  have hmtN : (dayStep recipes config (_gather_recent_history history config) g dn N
      k₀ P₀).1.meals.map PlanMeal.meal_type = MEAL_TYPES :=
    planMeals_map_meal_type _ _ _ _
  have hmtNnd : ((dayStep recipes config (_gather_recent_history history config) g
      dn N k₀ P₀).1.meals.map PlanMeal.meal_type).Nodup := by
    rw [hmtN]
    exact hmnodup
  obtain ⟨S1, S2, hdecomp, hS1ne⟩ := findMeal_decomp hfm
  have hslmt : sl.meal_type = m := (findMeal_some hfm).2
  have hother : ∀ s : PlanMeal, s ∈ S1 ++ S2 → ¬ lunchProducerSlot recipes s := by
    intro s hs hlp
    obtain ⟨rid, hsid, r', hr'mem, hr'id, hflag1, hflag2⟩ := hlp
    have hsmem : s ∈ (dayStep recipes config (_gather_recent_history history config)
        g dn N k₀ P₀).1.meals := by
      rw [hdecomp]
      rcases List.mem_append.mp hs with h | h
      · exact List.mem_append_left _ h
      · exact List.mem_append_right _ (List.mem_cons_of_mem _ h)
    have hsne : s.meal_type ≠ m := by
      rcases List.mem_append.mp hs with h | h
      · exact hS1ne s h
      · rw [← hslmt]
        exact nodup_right_ne (by rw [← hdecomp]; exact hmtNnd) s h
    have hsmtmem : s.meal_type ∈ MEAL_TYPES := by
      rw [← hmtN]
      exact List.mem_map_of_mem _ hsmem
    have hfms := findMeal_self hmtNnd hsmem
    have hbind : (slotOf (generate_plan recipes config history seed g now)
        (DAY_NAMES.getD N "") s.meal_type).bind PlanMeal.recipe_id = some rid := by
      rw [hdN, hslotN, hfms]
      exact hsid
    exact honly s.meal_type hsmtmem hsne rid hbind r' hr'mem hr'id ⟨hflag1, hflag2⟩
  have hpend := planMeals_pend_set
    (dayCtxFor recipes config (_gather_recent_history history config) g dn N P₀)
    MEAL_TYPES k₀ (aremove P₀ dn) S1 S2 sl r hdecomp hslid huniq hprod hrep hlen
    (fun s hs => hother s (List.mem_append_left _ hs))
    (fun s hs => hother s (List.mem_append_right _ hs))
  have hpend' : pendingFor
      (dayStep recipes config (_gather_recent_history history config) g dn N
        k₀ P₀).2.2 dn1 "lunch" = some r := by
    rw [← hdN1]
    exact hpend
  obtain ⟨k'', hk⟩ := planMeals_getElem
    (dayCtxFor recipes config (_gather_recent_history history config) g dn1 (N + 1)
      (dayStep recipes config (_gather_recent_history history config) g dn N
        k₀ P₀).2.2)
    MEAL_TYPES
    (dayStep recipes config (_gather_recent_history history config) g dn N
      k₀ P₀).2.1
    (aremove (dayStep recipes config (_gather_recent_history history config) g dn N
      k₀ P₀).2.2 dn1)
    1 "lunch" (by simp [MEAL_TYPES])
  have spec := planMealFor_spec
    (dayCtxFor recipes config (_gather_recent_history history config) g dn1 (N + 1)
      (dayStep recipes config (_gather_recent_history history config) g dn N
        k₀ P₀).2.2) "lunch" k''
  rcases spec.2.2 with ⟨lr, hl, f1, -, -, f4, f5, f6, -⟩ | ⟨hl, -⟩ | ⟨hl, -⟩ |
    ⟨rr, hl, -⟩
  · have hlr : lr = r := by
      have h := hl.symm.trans hpend'
      injection h
    subst hlr
    refine ⟨_, ?_, f4, f1, f5, f6⟩
    rw [hdN1]
    unfold slotOf
    rw [hfdN1]
    have hmtN1 : (dayStep recipes config (_gather_recent_history history config) g
        dn1 (N + 1)
        (dayStep recipes config (_gather_recent_history history config) g dn N
          k₀ P₀).2.1
        (dayStep recipes config (_gather_recent_history history config) g dn N
          k₀ P₀).2.2).1.meals.map PlanMeal.meal_type = MEAL_TYPES :=
      planMeals_map_meal_type _ _ _ _
    have hidx : MEAL_TYPES[1]? = some "lunch" := by simp [MEAL_TYPES]
    have hfm1 := findMeal_eq_getElem hmtN1 hmnodup hidx
    exact hfm1.trans hk
  · exact absurd (hl.symm.trans hpend') (by simp)
  · exact absurd (hl.symm.trans hpend') (by simp)
  · exact absurd (hl.symm.trans hpend') (by simp)

/-- Claim C1 (amended), applied: a single lunch-leftover-producing
dinner on Sunday forces Monday's lunch to be its leftover, even though
Monday lunch is in the skip set. -/
theorem C1_amended_witness :
    ∃ slot,
      slotOf (generate_plan [rDinnerProd] cfgSkipMonLunch none none gzero "t")
          (DAY_NAMES.getD 1 "") "lunch" = some slot ∧
        slot.is_leftover = true ∧ slot.recipe_id = none ∧
        slot.leftover_source_id = some rDinnerProd.id ∧
        slot.leftover_source_name = some rDinnerProd.name := by
  apply C1_amended [rDinnerProd] cfgSkipMonLunch none none gzero "t" 0 rDinnerProd
    "dinner" (by decide) (by with_unfolding_all decide)
    (by with_unfolding_all decide) rfl rfl (by with_unfolding_all decide)
  intro m' hm' hne rid hbind
  simp only [MEAL_TYPES, List.mem_cons, List.not_mem_nil, or_false] at hm'
  rcases hm' with rfl | rfl | rfl | rfl
  · rw [show (slotOf (generate_plan [rDinnerProd] cfgSkipMonLunch none none gzero
        "t") (DAY_NAMES.getD 0 "") "breakfast").bind PlanMeal.recipe_id = none from
      by with_unfolding_all decide] at hbind
    exact absurd hbind (by simp)
  · rw [show (slotOf (generate_plan [rDinnerProd] cfgSkipMonLunch none none gzero
        "t") (DAY_NAMES.getD 0 "") "lunch").bind PlanMeal.recipe_id = none from
      by with_unfolding_all decide] at hbind
    exact absurd hbind (by simp)
  · exact absurd rfl hne
  · rw [show (slotOf (generate_plan [rDinnerProd] cfgSkipMonLunch none none gzero
        "t") (DAY_NAMES.getD 0 "") "snack").bind PlanMeal.recipe_id = none from
      by with_unfolding_all decide] at hbind
    exact absurd hbind (by simp)

/-- Claim C2, applied: with window 0 and rBfast's id in history, the id
is forbidden, yet the only-candidate fallback schedules it and the
forbidden-filtered candidate list is indeed empty. -/
theorem C2_recency_window_zero_witness :
    "b" ∈ _gather_recent_history (some histB) cfgPlain ∧
    (slotCandidates [rBfast] cfgPlain "Sunday" "breakfast").filter
        (fun r => decide (r.id ∉ _gather_recent_history (some histB) cfgPlain)) =
      [] := by
  have h := C2_recency_window_zero [rBfast] cfgPlain histB none gzero "t" rfl
  refine ⟨?_, ?_⟩
  · exact h.1 { week := some 0, recipes := ["b"] } (by with_unfolding_all decide) 0
      rfl "b" (by with_unfolding_all decide)
  · exact (h.2 "Sunday" "breakfast" "b" (by with_unfolding_all decide)
      (by with_unfolding_all decide)).1

end MealPlanner
